import Mathlib

/-!
Verification development for the LocalWebAI model cache.

This file gives a shallow embedding of the repository's IndexedDB-backed
`ModelCache` (the chunked, version-2 implementation found in the unnamed
source file declaring `DB_VERSION = 2`, and the legacy single-store
implementation in `ts-wrapper/model-cache.ts`), and proves the stated
properties of chunking, reassembly, eviction and error handling against it.

Modelling conventions:
- IndexedDB object stores become Lean lists of records; a keyed `put` is an
  upsert (remove any record with the same key, then append), a keyed `get`
  is `find?`, and a key-range `getAll`/cursor walk over one `modelId`
  becomes a `filter` on that `modelId`.  Enumeration order of a store is
  only observable through the eviction sweep's sort by `lastAccessed`
  (ties are unspecified by the code; the theorems below use distinct
  timestamps) and through chunk reassembly, which the code explicitly
  re-sorts by `chunkIndex`, so the list order of the abstraction is not
  observable where the theorems look.
- `ArrayBuffer` contents become `List Nat` (one entry per byte);
  `Date.now()` timestamps become explicit `Nat` arguments.
- Fallible IndexedDB requests are modelled by explicit failure
  specifications (`FailureSpec`): a request whose `onerror` fires is a
  request whose failure flag is set.  An aborted transaction rolls back
  every write made inside that transaction.
- The latched "database could not be opened" condition of the version-2
  cache (`getDb` throwing when `this.db` is null or `dbReadyPromise`
  rejected) is a boolean `avail` parameter on the public operations.
-/

/-- `ModelMetadata` record, one per cached model (metadata object store,
keyed by `modelId`). -/
structure ModelMetadata where
  modelId : String
  totalSize : Nat
  chunkCount : Nat
  chunkSize : Nat
  createdAt : Nat
  lastAccessed : Nat
  fileName : Option String
  contentType : Option String
deriving Repr, DecidableEq

/-- `ModelChunk` record (chunk object store, compound key
`(modelId, chunkIndex)`). -/
structure ModelChunk where
  modelId : String
  chunkIndex : Nat
  data : List Nat
deriving Repr, DecidableEq

/-- The durable state: contents of the two object stores. -/
structure CacheState where
  metadata : List ModelMetadata
  chunks : List ModelChunk
deriving Repr, DecidableEq

def emptyState : CacheState := { metadata := [], chunks := [] }

/-- `DEFAULT_CHUNK_SIZE_BYTES = 16 * 1024 * 1024` (16MB chunks). -/
def DEFAULT_CHUNK_SIZE_BYTES : Nat := 16 * 1024 * 1024

/-- `DEFAULT_MAX_CACHE_SIZE_BYTES = 512 * 1024 * 1024` (512MB max cache size). -/
def DEFAULT_MAX_CACHE_SIZE_BYTES : Nat := 512 * 1024 * 1024

/-- The two configuration values fixed at construction (`readonly` fields
`chunkSize`, `maxCacheSize`; no method of the class assigns them after the
constructor, so they are immutable for the instance's lifetime). -/
structure CacheConfig where
  chunkSize : Nat
  maxCacheSize : Nat
deriving Repr, DecidableEq

/-- The constructor:
`this.chunkSize = chunkSizeInBytes || DEFAULT_CHUNK_SIZE_BYTES;`
`this.maxCacheSize = maxCacheSizeInBytes || DEFAULT_MAX_CACHE_SIZE_BYTES;`
An absent argument (`undefined`) and an explicit `0` are both falsy in
JavaScript, so both select the default; any nonzero byte count is kept. -/
def mkModelCache (chunkSizeInBytes maxCacheSizeInBytes : Option Nat) : CacheConfig :=
  { chunkSize :=
      match chunkSizeInBytes with
      | none => DEFAULT_CHUNK_SIZE_BYTES
      | some n => if n = 0 then DEFAULT_CHUNK_SIZE_BYTES else n
    maxCacheSize :=
      match maxCacheSizeInBytes with
      | none => DEFAULT_MAX_CACHE_SIZE_BYTES
      | some n => if n = 0 then DEFAULT_MAX_CACHE_SIZE_BYTES else n }

/-- Keyed `get` on the metadata store. -/
def metadataGet (id : String) (s : CacheState) : Option ModelMetadata :=
  s.metadata.find? (fun m => m.modelId == id)

/-- Key-range `getAll` on the chunk store restricted to one `modelId`
(range `[modelId, 0] .. [modelId, MAX_SAFE_INTEGER]`; chunk indices are
naturals, so the range covers every chunk of the model). -/
def chunksFor (id : String) (s : CacheState) : List ModelChunk :=
  s.chunks.filter (fun c => c.modelId == id)

/-- Keyed `put` (upsert) on the metadata store. -/
def upsertMeta (m : ModelMetadata) (l : List ModelMetadata) : List ModelMetadata :=
  l.filter (fun x => x.modelId != m.modelId) ++ [m]

/-- `deleteModel`: one transaction deleting the metadata record for
`modelId` and, via a cursor over the key range, every chunk record with
that `modelId`. -/
def deleteModel (id : String) (s : CacheState) : CacheState :=
  { metadata := s.metadata.filter (fun m => m.modelId != id)
    chunks := s.chunks.filter (fun c => c.modelId != id) }

/-- `Math.ceil(totalSize / chunkSize)` on naturals (the code divides two
nonnegative integers; for `totalSize = 0` this is `0`). -/
def ceilDiv (a b : Nat) : Nat := (a + b - 1) / b

/-- The chunk records written by `cacheModel`'s loop: chunk `i` holds
`modelData.slice(i * chunkSize, min((i + 1) * chunkSize, totalSize))`,
for `i = 0 .. chunkCount - 1`. -/
def chunkRecords (id : String) (cs : Nat) (data : List Nat) : List ModelChunk :=
  (List.range (ceilDiv data.length cs)).map (fun i =>
    { modelId := id, chunkIndex := i, data := (data.drop (i * cs)).take cs })

/-- `allMetadata.reduce((sum, meta) => sum + meta.totalSize, 0)`. -/
def sumSizes (l : List ModelMetadata) : Nat := (l.map (fun m => m.totalSize)).sum

/-- `allMetadata.sort((a, b) => a.lastAccessed - b.lastAccessed)`:
stable ascending sort by `lastAccessed` (oldest first). -/
def sortByLastAccessed (l : List ModelMetadata) : List ModelMetadata :=
  List.insertionSort (fun a b => a.lastAccessed ≤ b.lastAccessed) l

/-- `chunks.sort((a, b) => a.chunkIndex - b.chunkIndex)`. -/
def sortByChunkIndex (l : List ModelChunk) : List ModelChunk :=
  List.insertionSort (fun a b => a.chunkIndex ≤ b.chunkIndex) l

/-- The eviction sweep of `evictModelsIfNeeded`: walk the metadata sorted
by `lastAccessed`; at each step, stop if `currentCacheSize <= maxCacheSize`;
otherwise try `deleteModel`.  A failing delete (`deleteFails`) is caught:
the size counter is not decremented, the state is unchanged (the delete's
transaction rolled back), and the sweep continues with the next model. -/
def evictLoop (maxCacheSize : Nat) (deleteFails : String → Bool) :
    List ModelMetadata → Nat → CacheState → CacheState
  | [], _, s => s
  | m :: rest, cur, s =>
    if cur ≤ maxCacheSize then s
    else if deleteFails m.modelId then
      evictLoop maxCacheSize deleteFails rest cur s
    else
      evictLoop maxCacheSize deleteFails rest (cur - m.totalSize) (deleteModel m.modelId s)

/-- `evictModelsIfNeeded`: load all metadata, sum the sizes; return at once
if within budget, or if a single stored model alone exceeds the budget
(the single-oversized-model exemption); otherwise sweep in ascending
`lastAccessed` order. -/
def evictModelsIfNeeded (maxCacheSize : Nat) (deleteFails : String → Bool)
    (s : CacheState) : CacheState :=
  let cur := sumSizes s.metadata
  if cur ≤ maxCacheSize then s
  else if s.metadata.length == 1 then s
  else evictLoop maxCacheSize deleteFails (sortByLastAccessed s.metadata) cur s

/-- Which IndexedDB requests fail during a `cacheModel` call:
`metaWriteFails` — the metadata `put` request errors; `chunkWriteFails i` —
the `put` request for chunk `i` errors; `deleteFails id` — a `deleteModel`
issued by the eviction sweep rejects for that model id. -/
structure FailureSpec where
  metaWriteFails : Bool
  chunkWriteFails : Nat → Bool
  deleteFails : String → Bool

def noFailures : FailureSpec :=
  { metaWriteFails := false, chunkWriteFails := fun _ => false, deleteFails := fun _ => false }

/-- `cacheModel(modelId, modelData, fileName?, contentType?)` with an
explicit failure specification.  The code first awaits
`deleteModel(modelId, db)` (its own committed transaction), then opens one
read-write transaction over both stores and puts the metadata record and
all `chunkCount` chunk records inside it.  If the metadata put or any chunk
put errors, the transaction is aborted — every write inside it is rolled
back, leaving the post-delete state — and the returned promise rejects
(`false` here).  On commit, `evictModelsIfNeeded` runs and the promise
resolves (`true`). -/
def cacheModelF (cfg : CacheConfig) (f : FailureSpec) (id : String) (data : List Nat)
    (now : Nat) (fileName contentType : Option String) (s : CacheState) :
    Bool × CacheState :=
  let s1 := deleteModel id s
  let totalSize := data.length
  let chunkCount := ceilDiv totalSize cfg.chunkSize
  if f.metaWriteFails || (List.range chunkCount).any f.chunkWriteFails then
    (false, s1)
  else
    let meta : ModelMetadata :=
      { modelId := id, totalSize := totalSize, chunkCount := chunkCount
        chunkSize := cfg.chunkSize, createdAt := now, lastAccessed := now
        fileName := fileName, contentType := contentType }
    let s2 : CacheState :=
      { metadata := upsertMeta meta s1.metadata
        chunks := s1.chunks ++ chunkRecords id cfg.chunkSize data }
    (true, evictModelsIfNeeded cfg.maxCacheSize f.deleteFails s2)

/-- `cacheModel` on the failure-free path. -/
def cacheModel (cfg : CacheConfig) (id : String) (data : List Nat) (now : Nat)
    (s : CacheState) : CacheState :=
  (cacheModelF cfg noFailures id data now none none s).2

/-- Outcome of `getModelFromCache`: `found` — the promise resolves with a
reassembled buffer; `absent` — it resolves with `null`; `stuck` — the
reassembly loop would write past the end of the allocated buffer, so
`Uint8Array.set` throws inside the success handler and the promise never
settles (unreachable from consistent states). -/
inductive GetResult
  | found (bytes : List Nat)
  | absent
  | stuck
deriving Repr, DecidableEq

/-- `getModelFromCache(modelId)`: read the metadata record; if absent,
resolve `null`.  Otherwise update `lastAccessed` (a best-effort keyed put),
`getAll` the chunks in the model's key range, and compare the retrieved
chunk count with `metadata.chunkCount`; on mismatch delete the entry and
resolve `null`.  On match, sort by `chunkIndex` and copy each chunk in turn
into a fresh zero-initialised buffer of length `metadata.totalSize`. -/
def getModelFromCache (id : String) (now : Nat) (s : CacheState) :
    GetResult × CacheState :=
  match metadataGet id s with
  | none => (.absent, s)
  | some meta =>
    let s1 : CacheState :=
      { s with metadata := upsertMeta { meta with lastAccessed := now } s.metadata }
    let chs := chunksFor id s1
    if chs.length ≠ meta.chunkCount then
      (.absent, deleteModel id s1)
    else
      let joined := ((sortByChunkIndex chs).map (fun c => c.data)).flatten
      if joined.length ≤ meta.totalSize then
        (.found (joined ++ List.replicate (meta.totalSize - joined.length) 0), s1)
      else
        (.stuck, s1)

/-- `isModelCached(modelId)`: a metadata-only keyed `get`, truthiness of
the result. -/
def isModelCached (id : String) (s : CacheState) : Bool :=
  (metadataGet id s).isSome

/-- `clearCache()`: clear both object stores. -/
def clearCache (_s : CacheState) : CacheState :=
  { metadata := [], chunks := [] }

/-- The error the version-2 cache's `getDb` raises on every call when the
database is unavailable (`IndexedDB is not available or failed to
initialize. Caching is disabled.`); the open failure is latched in the
constructor's `dbReadyPromise`, never re-attempted. -/
inductive CacheError
  | storageUnavailable
deriving Repr, DecidableEq

/-- Version-2 `getModelFromCache`: `await this.getDb()` rejects the whole
call when the database is unavailable. -/
def getModelV2 (avail : Bool) (id : String) (now : Nat) (s : CacheState) :
    Except CacheError (GetResult × CacheState) :=
  if avail then .ok (getModelFromCache id now s) else .error .storageUnavailable

/-- Version-2 `cacheModel` behind `getDb`. -/
def cacheModelV2 (avail : Bool) (cfg : CacheConfig) (f : FailureSpec) (id : String)
    (data : List Nat) (now : Nat) (s : CacheState) :
    Except CacheError (Bool × CacheState) :=
  if avail then .ok (cacheModelF cfg f id data now none none s)
  else .error .storageUnavailable

/-- Version-2 `isModelCached` behind `getDb`. -/
def isModelCachedV2 (avail : Bool) (id : String) (s : CacheState) :
    Except CacheError Bool :=
  if avail then .ok (isModelCached id s) else .error .storageUnavailable

/-- Version-2 `clearCache` behind `getDb`. -/
def clearCacheV2 (avail : Bool) (s : CacheState) : Except CacheError CacheState :=
  if avail then .ok (clearCache s) else .error .storageUnavailable

/-- Record of the legacy single-store cache in `ts-wrapper/model-cache.ts`
(`{ modelId, data, timestamp }` in the `models` store). -/
structure V1Record where
  modelId : String
  data : List Nat
  timestamp : Nat
deriving Repr, DecidableEq

/-- Legacy cache state: `none` models `this.db === null` (open failed or
IndexedDB missing; the v1 `initDatabase` resolves instead of rejecting). -/
def V1State := Option (List V1Record)

/-- v1 `getModelFromCache`: returns `null` when the database is
unavailable, otherwise the stored record's `data` if present. -/
def v1GetModelFromCache (db : V1State) (id : String) : Option (List Nat) :=
  match db with
  | none => none
  | some l => (l.find? (fun r => r.modelId == id)).map (fun r => r.data)

/-- v1 `cacheModel`: returns without touching anything when the database
is unavailable, otherwise upserts `{ modelId, data, timestamp }`. -/
def v1CacheModel (db : V1State) (id : String) (data : List Nat) (now : Nat) : V1State :=
  match db with
  | none => none
  | some l =>
    some ((l.filter (fun r => r.modelId != id)) ++ [⟨id, data, now⟩])

/-- v1 `isModelCached`: `!!(await getModelFromCache(modelId))`. -/
def v1IsModelCached (db : V1State) (id : String) : Bool :=
  (v1GetModelFromCache db id).isSome

/-- v1 `clearCache`: returns without touching anything when the database
is unavailable, otherwise clears the store. -/
def v1ClearCache (db : V1State) : V1State :=
  match db with
  | none => none
  | some _ => some []

/-! ### List and arithmetic helper lemmas -/

theorem take_add_split {α : Type} : ∀ (m n : Nat) (l : List α),
    l.take (m + n) = l.take m ++ (l.drop m).take n
  | 0, _, _ => by simp
  | _ + 1, _, [] => by simp
  | m + 1, n, a :: l => by
    simp only [List.take_succ_cons, List.drop_succ_cons, Nat.succ_add, List.cons_append]
    exact congrArg (a :: ·) (take_add_split m n l)

/-- Concatenating the first `n` slices of width `cs` recovers the first
`n * cs` elements. -/
theorem flatten_slices {α : Type} (cs : Nat) : ∀ (n : Nat) (l : List α),
    ((List.range n).map (fun i => (l.drop (i * cs)).take cs)).flatten = l.take (n * cs)
  | 0, l => by simp
  | n + 1, l => by
    rw [List.range_succ_eq_map, List.map_cons, List.map_map, List.flatten_cons]
    have hrec : ((List.range n).map
        ((fun i => (l.drop (i * cs)).take cs) ∘ Nat.succ)).flatten
        = ((List.range n).map (fun i => ((l.drop cs).drop (i * cs)).take cs)).flatten := by
      congr 1
      apply List.map_congr_left
      intro i _
      simp only [Function.comp]
      rw [List.drop_drop]
      congr 2
      rw [Nat.succ_mul]
      exact Nat.add_comm _ _
    rw [hrec, flatten_slices cs n (l.drop cs)]
    have : (n + 1) * cs = cs + n * cs := by ring
    rw [this, take_add_split, Nat.zero_mul, List.drop_zero]

theorem le_ceilDiv_mul {a b : Nat} (hb : 0 < b) : a ≤ ceilDiv a b * b := by
  unfold ceilDiv
  have h1 := Nat.div_add_mod (a + b - 1) b
  have h2 : (a + b - 1) % b < b := Nat.mod_lt _ hb
  rw [Nat.mul_comm]
  generalize hq : (a + b - 1) / b = q at h1
  generalize hp : b * q = p
  rw [hp] at h1
  omega

theorem ceilDiv_eq_pred_div_succ {a b : Nat} (hb : 0 < b) (ha : 0 < a) :
    ceilDiv a b = (a - 1) / b + 1 := by
  unfold ceilDiv
  have : a + b - 1 = (a - 1) + b := by omega
  rw [this, Nat.add_div_right _ hb]

theorem flatten_chunkRecords (id : String) {cs : Nat} (hcs : 0 < cs) (data : List Nat) :
    ((chunkRecords id cs data).map (fun c => c.data)).flatten = data := by
  unfold chunkRecords
  rw [List.map_map]
  have : ((List.range (ceilDiv data.length cs)).map
      ((fun c : ModelChunk => c.data) ∘
        (fun i => ⟨id, i, (data.drop (i * cs)).take cs⟩))).flatten
      = ((List.range (ceilDiv data.length cs)).map
        (fun i => (data.drop (i * cs)).take cs)).flatten := rfl
  rw [this, flatten_slices]
  exact List.take_of_length_le (le_ceilDiv_mul hcs)

theorem chunkRecords_length (id : String) (cs : Nat) (data : List Nat) :
    (chunkRecords id cs data).length = ceilDiv data.length cs := by
  simp [chunkRecords]

theorem chunkRecords_modelId {id : String} {cs : Nat} {data : List Nat}
    {c : ModelChunk} (hc : c ∈ chunkRecords id cs data) : c.modelId = id := by
  unfold chunkRecords at hc
  obtain ⟨i, _, rfl⟩ := List.mem_map.mp hc
  rfl

theorem chunkRecords_sorted (id : String) (cs : Nat) (data : List Nat) :
    List.Sorted (fun a b : ModelChunk => a.chunkIndex ≤ b.chunkIndex)
      (chunkRecords id cs data) := by
  unfold chunkRecords
  apply List.Pairwise.map
  · intro a b hab
    exact Nat.le_of_lt hab
  · exact List.pairwise_lt_range _

theorem sortByChunkIndex_eq_of_sorted {l : List ModelChunk}
    (h : List.Sorted (fun a b : ModelChunk => a.chunkIndex ≤ b.chunkIndex) l) :
    sortByChunkIndex l = l :=
  List.Sorted.insertionSort_eq h

/-! ### Store-state helper lemmas -/

theorem find?_pred_congr {α : Type} {p q : α → Bool} (h : ∀ a, p a = q a)
    (l : List α) : l.find? p = l.find? q := by
  have hpq : p = q := funext h
  rw [hpq]

theorem metadataGet_deleteModel_self (id : String) (s : CacheState) :
    metadataGet id (deleteModel id s) = none := by
  simp only [metadataGet, deleteModel, List.find?_eq_none, List.mem_filter]
  intro x hx
  simp only [bne_iff_ne, ne_eq] at hx
  simp [hx.2]

theorem metadataGet_deleteModel_ne {id id' : String} (h : id ≠ id') (s : CacheState) :
    metadataGet id (deleteModel id' s) = metadataGet id s := by
  simp only [metadataGet, deleteModel, List.find?_filter]
  apply find?_pred_congr
  intro a
  by_cases ha : a.modelId = id
  · subst ha
    simp [h]
  · simp [ha]

theorem chunksFor_deleteModel_self (id : String) (s : CacheState) :
    chunksFor id (deleteModel id s) = [] := by
  simp only [chunksFor, deleteModel, List.filter_filter, List.filter_eq_nil_iff]
  intro a _
  by_cases ha : a.modelId = id <;> simp [ha]

theorem chunksFor_deleteModel_ne {id id' : String} (h : id ≠ id') (s : CacheState) :
    chunksFor id (deleteModel id' s) = chunksFor id s := by
  simp only [chunksFor, deleteModel, List.filter_filter]
  congr 1
  funext a
  by_cases ha : a.modelId = id
  · subst ha
    simp [h]
  · simp [ha]

theorem metadataGet_upsert_self {m : ModelMetadata} {id : String} (hm : m.modelId = id)
    (l : List ModelMetadata) (c : List ModelChunk) :
    metadataGet id { metadata := upsertMeta m l, chunks := c } = some m := by
  simp only [metadataGet, upsertMeta, List.find?_append]
  have h1 : (l.filter (fun x => x.modelId != m.modelId)).find?
      (fun a => a.modelId == id) = none := by
    simp only [List.find?_eq_none, List.mem_filter]
    intro x hx
    simp only [bne_iff_ne, ne_eq] at hx
    have : x.modelId ≠ id := hm ▸ hx.2
    simp [this]
  rw [h1]
  simp [hm]

theorem metadataGet_upsert_ne {m : ModelMetadata} {id : String} (hm : m.modelId ≠ id)
    (l : List ModelMetadata) (c c' : List ModelChunk) :
    metadataGet id { metadata := upsertMeta m l, chunks := c }
      = metadataGet id { metadata := l, chunks := c' } := by
  simp only [metadataGet, upsertMeta, List.find?_append]
  have h2 : List.find? (fun a => a.modelId == id) [m] = none := by
    simp [hm]
  rw [h2, Option.or_none, List.find?_filter]
  apply find?_pred_congr
  intro a
  by_cases ha : a.modelId = id
  · simp [ha, Ne.symm hm]
  · simp [ha]

theorem chunksFor_metadata_irrel (id : String) (ms : List ModelMetadata)
    (s : CacheState) : chunksFor id { s with metadata := ms } = chunksFor id s := rfl

theorem chunksFor_postWrite (id : String) (cs : Nat) (data : List Nat)
    (s : CacheState) (ms : List ModelMetadata) :
    chunksFor id { metadata := ms
                   chunks := (deleteModel id s).chunks ++ chunkRecords id cs data }
      = chunkRecords id cs data := by
  unfold chunksFor
  rw [List.filter_append]
  have h1 : (deleteModel id s).chunks.filter (fun c => c.modelId == id) = [] := by
    have := chunksFor_deleteModel_self id s
    simpa [chunksFor] using this
  have h2 : (chunkRecords id cs data).filter (fun c => c.modelId == id)
      = chunkRecords id cs data := by
    rw [List.filter_eq_self]
    intro c hc
    simp [chunkRecords_modelId hc]
  rw [h1, h2, List.nil_append]

theorem upsertMeta_deleteModel {meta : ModelMetadata} {id : String}
    (hm : meta.modelId = id) (s : CacheState) :
    upsertMeta meta (deleteModel id s).metadata
      = (deleteModel id s).metadata ++ [meta] := by
  unfold upsertMeta deleteModel
  dsimp only
  congr 1
  rw [List.filter_filter]
  congr 1
  funext a
  subst hm
  simp [Bool.and_self]

/-! ### Eviction helper lemmas -/

theorem evictLoop_stop {maxCacheSize cur : Nat} (df : String → Bool)
    (m : ModelMetadata) (rest : List ModelMetadata) (s : CacheState)
    (h1 : cur ≤ maxCacheSize) :
    evictLoop maxCacheSize df (m :: rest) cur s = s := by
  simp only [evictLoop]
  rw [if_pos h1]

theorem evictLoop_step {maxCacheSize cur : Nat} {df : String → Bool}
    {m : ModelMetadata} (rest : List ModelMetadata) (s : CacheState)
    (h1 : ¬ cur ≤ maxCacheSize) (h2 : df m.modelId = false) :
    evictLoop maxCacheSize df (m :: rest) cur s
      = evictLoop maxCacheSize df rest (cur - m.totalSize) (deleteModel m.modelId s) := by
  simp only [evictLoop]
  rw [if_neg h1, h2]
  simp

theorem evictLoop_step_failed {maxCacheSize cur : Nat} {df : String → Bool}
    {m : ModelMetadata} (rest : List ModelMetadata) (s : CacheState)
    (h1 : ¬ cur ≤ maxCacheSize) (h2 : df m.modelId = true) :
    evictLoop maxCacheSize df (m :: rest) cur s
      = evictLoop maxCacheSize df rest cur s := by
  simp only [evictLoop]
  rw [if_neg h1, h2]
  simp

theorem evict_noop_of_le {maxCacheSize : Nat} {s : CacheState}
    (h : sumSizes s.metadata ≤ maxCacheSize) (df : String → Bool) :
    evictModelsIfNeeded maxCacheSize df s = s := by
  unfold evictModelsIfNeeded
  simp [h]

theorem evict_noop_of_single {maxCacheSize : Nat} {s : CacheState}
    (h : s.metadata.length = 1) (df : String → Bool) :
    evictModelsIfNeeded maxCacheSize df s = s := by
  unfold evictModelsIfNeeded
  by_cases hc : sumSizes s.metadata ≤ maxCacheSize
  · simp [hc]
  · simp [hc, h]

/-- The eviction sweep only ever applies `deleteModel`: for any model id,
either its metadata and chunks pass through untouched, or both are gone. -/
theorem evictLoop_cases (maxCacheSize : Nat) (df : String → Bool) :
    ∀ (l : List ModelMetadata) (cur : Nat) (s : CacheState) (id : String),
    (metadataGet id (evictLoop maxCacheSize df l cur s) = metadataGet id s ∧
      chunksFor id (evictLoop maxCacheSize df l cur s) = chunksFor id s)
    ∨ (metadataGet id (evictLoop maxCacheSize df l cur s) = none ∧
      chunksFor id (evictLoop maxCacheSize df l cur s) = [])
  | [], _, s, id => Or.inl ⟨rfl, rfl⟩
  | m :: rest, cur, s, id => by
    unfold evictLoop
    by_cases h1 : cur ≤ maxCacheSize
    · rw [if_pos h1]
      exact Or.inl ⟨rfl, rfl⟩
    · rw [if_neg h1]
      by_cases h2 : df m.modelId
      · rw [if_pos h2]
        exact evictLoop_cases maxCacheSize df rest cur s id
      · rw [if_neg h2]
        rcases evictLoop_cases maxCacheSize df rest (cur - m.totalSize)
            (deleteModel m.modelId s) id with ⟨ha, hb⟩ | hr
        · by_cases hid : m.modelId = id
          · subst hid
            exact Or.inr ⟨ha.trans (metadataGet_deleteModel_self _ s),
              hb.trans (chunksFor_deleteModel_self _ s)⟩
          · exact Or.inl ⟨ha.trans (metadataGet_deleteModel_ne (fun hh => hid hh.symm) s),
              hb.trans (chunksFor_deleteModel_ne (fun hh => hid hh.symm) s)⟩
        · exact Or.inr hr

theorem evict_cases (maxCacheSize : Nat) (df : String → Bool) (s : CacheState)
    (id : String) :
    (metadataGet id (evictModelsIfNeeded maxCacheSize df s) = metadataGet id s ∧
      chunksFor id (evictModelsIfNeeded maxCacheSize df s) = chunksFor id s)
    ∨ (metadataGet id (evictModelsIfNeeded maxCacheSize df s) = none ∧
      chunksFor id (evictModelsIfNeeded maxCacheSize df s) = []) := by
  unfold evictModelsIfNeeded
  by_cases h1 : sumSizes s.metadata ≤ maxCacheSize
  · rw [if_pos h1]
    exact Or.inl ⟨rfl, rfl⟩
  · rw [if_neg h1]
    by_cases h2 : s.metadata.length == 1
    · rw [if_pos h2]
      exact Or.inl ⟨rfl, rfl⟩
    · rw [if_neg h2]
      exact evictLoop_cases maxCacheSize df _ _ s id

/-! ### `cacheModel` rewriting lemmas -/

/-- The metadata record written by a successful `cacheModel`. -/
def writtenMeta (cfg : CacheConfig) (id : String) (data : List Nat) (now : Nat)
    (fileName contentType : Option String) : ModelMetadata :=
  { modelId := id, totalSize := data.length
    chunkCount := ceilDiv data.length cfg.chunkSize
    chunkSize := cfg.chunkSize, createdAt := now, lastAccessed := now
    fileName := fileName, contentType := contentType }

/-- The state holding exactly the record set a successful `cacheModel`
commits, before the eviction sweep runs. -/
def postWriteState (cfg : CacheConfig) (id : String) (data : List Nat) (now : Nat)
    (fileName contentType : Option String) (s : CacheState) : CacheState :=
  { metadata := upsertMeta (writtenMeta cfg id data now fileName contentType)
      (deleteModel id s).metadata
    chunks := (deleteModel id s).chunks ++ chunkRecords id cfg.chunkSize data }

theorem cacheModelF_success (cfg : CacheConfig) (f : FailureSpec) (id : String)
    (data : List Nat) (now : Nat) (fileName contentType : Option String)
    (s : CacheState) (hm : f.metaWriteFails = false)
    (hc : (List.range (ceilDiv data.length cfg.chunkSize)).any f.chunkWriteFails = false) :
    cacheModelF cfg f id data now fileName contentType s =
      (true, evictModelsIfNeeded cfg.maxCacheSize f.deleteFails
        (postWriteState cfg id data now fileName contentType s)) := by
  simp [cacheModelF, postWriteState, writtenMeta, hm, hc]

theorem cacheModel_eq_evict_postWrite (cfg : CacheConfig) (id : String)
    (data : List Nat) (now : Nat) (s : CacheState) :
    cacheModel cfg id data now s =
      evictModelsIfNeeded cfg.maxCacheSize (fun _ => false)
        (postWriteState cfg id data now none none s) := by
  unfold cacheModel
  rw [cacheModelF_success cfg noFailures id data now none none s rfl (by simp [noFailures])]
  rfl

/-! ### Consistent read lemma -/

/-- Reading a model whose stored chunk set is exactly the chunking of
`data` reassembles `data` and only refreshes `lastAccessed`. -/
theorem getModelFromCache_consistent (id : String) (now : Nat) (s : CacheState)
    (meta : ModelMetadata) {cs : Nat} (hcs : 0 < cs) (data : List Nat)
    (hmeta : metadataGet id s = some meta)
    (hchunks : chunksFor id s = chunkRecords id cs data)
    (hcount : meta.chunkCount = ceilDiv data.length cs)
    (hsize : meta.totalSize = data.length) :
    getModelFromCache id now s =
      (.found data,
        { s with metadata := upsertMeta { meta with lastAccessed := now } s.metadata }) := by
  unfold getModelFromCache
  rw [hmeta]
  simp only
  have hch : chunksFor id
      { s with metadata := upsertMeta { meta with lastAccessed := now } s.metadata }
      = chunkRecords id cs data := hchunks
  rw [hch]
  have hlen : (chunkRecords id cs data).length = meta.chunkCount := by
    rw [chunkRecords_length, hcount]
  rw [if_neg (fun h => h hlen)]
  rw [sortByChunkIndex_eq_of_sorted (chunkRecords_sorted id cs data)]
  rw [flatten_chunkRecords id hcs data]
  rw [if_pos (le_of_eq hsize.symm)]
  rw [hsize, Nat.sub_self, List.replicate_zero, List.append_nil]

/-! ### Round-trip master lemma -/

theorem sumSizes_append (l1 l2 : List ModelMetadata) :
    sumSizes (l1 ++ l2) = sumSizes l1 + sumSizes l2 := by
  simp [sumSizes]

/-- When the rest of the cache plus the new blob fits in the budget, or the
new model is the only one stored, the post-put eviction sweep is a no-op. -/
theorem evict_postWrite_noop (cfg : CacheConfig) (id : String) (data : List Nat)
    (now : Nat) (fn ct : Option String) (s : CacheState)
    (hfit : sumSizes (deleteModel id s).metadata + data.length ≤ cfg.maxCacheSize
            ∨ (deleteModel id s).metadata = []) (df : String → Bool) :
    evictModelsIfNeeded cfg.maxCacheSize df (postWriteState cfg id data now fn ct s)
      = postWriteState cfg id data now fn ct s := by
  have hmeta : (postWriteState cfg id data now fn ct s).metadata
      = (deleteModel id s).metadata ++ [writtenMeta cfg id data now fn ct] :=
    upsertMeta_deleteModel rfl s
  rcases hfit with h | h
  · apply evict_noop_of_le _ df
    rw [hmeta, sumSizes_append]
    simpa [sumSizes, writtenMeta] using h
  · by_cases hle : sumSizes (postWriteState cfg id data now fn ct s).metadata
        ≤ cfg.maxCacheSize
    · exact evict_noop_of_le hle df
    · apply evict_noop_of_single _ df
      rw [hmeta, h]
      rfl

/-- Master round-trip lemma: a `cacheModel` whose eviction sweep does not
interfere (budget respected, or the model alone in the cache) leaves
exactly the metadata record and chunk records of the written blob, and a
subsequent `getModelFromCache` reassembles exactly the written bytes. -/
theorem cacheModel_roundtrip (cfg : CacheConfig) (hcs : 0 < cfg.chunkSize)
    (id : String) (data : List Nat) (now now' : Nat) (s : CacheState)
    (hfit : sumSizes (deleteModel id s).metadata + data.length ≤ cfg.maxCacheSize
            ∨ (deleteModel id s).metadata = []) :
    (getModelFromCache id now' (cacheModel cfg id data now s)).1
        = .found data
    ∧ metadataGet id (cacheModel cfg id data now s)
        = some (writtenMeta cfg id data now none none)
    ∧ chunksFor id (cacheModel cfg id data now s)
        = chunkRecords id cfg.chunkSize data := by
  rw [cacheModel_eq_evict_postWrite,
    evict_postWrite_noop cfg id data now none none s hfit]
  have hm : metadataGet id (postWriteState cfg id data now none none s)
      = some (writtenMeta cfg id data now none none) := by
    unfold postWriteState
    exact metadataGet_upsert_self
      (show (writtenMeta cfg id data now none none).modelId = id from rfl) _ _
  have hc : chunksFor id (postWriteState cfg id data now none none s)
      = chunkRecords id cfg.chunkSize data := by
    unfold postWriteState
    exact chunksFor_postWrite id cfg.chunkSize data s _
  refine ⟨?_, hm, hc⟩
  rw [getModelFromCache_consistent id now' _ (writtenMeta cfg id data now none none)
    hcs data hm hc rfl rfl]

/-! ### Claim theorems -/

/-- C1: for every model id and every byte sequence (length `0`, below,
at, just above, or many times the chunk size), a successful
`cacheModel(id, bytes)` followed by `getModelFromCache(id)` returns a
buffer whose bytes are identical to the input.  The chunk size is nonzero
(the constructor replaces a falsy argument by the default), and the
eviction sweep triggered by the put does not interfere: the rest of the
cache plus the new blob fits in the budget, or the new model is the only
one stored (in which case the single-oversized-model exemption keeps it). -/
theorem c1_put_get_roundtrip (cfg : CacheConfig) (hcs : 0 < cfg.chunkSize)
    (id : String) (data : List Nat) (now now' : Nat) (s : CacheState)
    (hfit : sumSizes (deleteModel id s).metadata + data.length ≤ cfg.maxCacheSize
            ∨ (deleteModel id s).metadata = []) :
    (getModelFromCache id now' (cacheModel cfg id data now s)).1
      = GetResult.found data :=
  (cacheModel_roundtrip cfg hcs id data now now' s hfit).1

/-- Witness for C1 at chunk size 4 and a 9-byte blob (three chunks, the
last one short), plus the boundary lengths 0, 4 and 5 from the claim. -/
theorem c1_put_get_roundtrip_witness :
    ((0:Nat) < 4
      ∧ (getModelFromCache "m" 7 (cacheModel ⟨4, 100⟩ "m" [1,2,3,4,5,6,7,8,9] 5
          emptyState)).1 = GetResult.found [1,2,3,4,5,6,7,8,9])
    ∧ (getModelFromCache "m" 7 (cacheModel ⟨4, 100⟩ "m" [] 5 emptyState)).1
        = GetResult.found []
    ∧ (getModelFromCache "m" 7 (cacheModel ⟨4, 100⟩ "m" [1,2,3,4] 5 emptyState)).1
        = GetResult.found [1,2,3,4]
    ∧ (getModelFromCache "m" 7 (cacheModel ⟨4, 100⟩ "m" [1,2,3,4,5] 5 emptyState)).1
        = GetResult.found [1,2,3,4,5] :=
  ⟨⟨by decide,
    c1_put_get_roundtrip ⟨4, 100⟩ (by decide) "m" [1,2,3,4,5,6,7,8,9] 5 7 emptyState
      (Or.inr rfl)⟩,
    c1_put_get_roundtrip ⟨4, 100⟩ (by decide) "m" [] 5 7 emptyState (Or.inr rfl),
    c1_put_get_roundtrip ⟨4, 100⟩ (by decide) "m" [1,2,3,4] 5 7 emptyState (Or.inr rfl),
    c1_put_get_roundtrip ⟨4, 100⟩ (by decide) "m" [1,2,3,4,5] 5 7 emptyState
      (Or.inr rfl)⟩

/-- C5: if exactly one model is stored (no other metadata records remain
once the id being written is cleared) and its size alone exceeds
`maxCacheSize`, the eviction sweep triggered by the put leaves it in
place: its metadata is still present and `getModelFromCache` still
reassembles it. -/
theorem c5_single_oversized_kept (cfg : CacheConfig) (hcs : 0 < cfg.chunkSize)
    (id : String) (data : List Nat) (now now' : Nat) (s : CacheState)
    (halone : (deleteModel id s).metadata = [])
    (hbig : cfg.maxCacheSize < data.length) :
    metadataGet id (cacheModel cfg id data now s)
        = some (writtenMeta cfg id data now none none)
    ∧ (getModelFromCache id now' (cacheModel cfg id data now s)).1
        = GetResult.found data :=
  have h := cacheModel_roundtrip cfg hcs id data now now' s (Or.inr halone)
  ⟨h.2.1, h.1⟩

/-- Witness for C5: a 7-byte model against a 5-byte budget survives its
own put's eviction sweep and stays retrievable. -/
theorem c5_single_oversized_kept_witness :
    ((0:Nat) < 4 ∧ (deleteModel "m" emptyState).metadata = [] ∧ (5:Nat) < 7)
    ∧ metadataGet "m" (cacheModel ⟨4, 5⟩ "m" [1,2,3,4,5,6,7] 3 emptyState)
        = some (writtenMeta ⟨4, 5⟩ "m" [1,2,3,4,5,6,7] 3 none none)
    ∧ (getModelFromCache "m" 9 (cacheModel ⟨4, 5⟩ "m" [1,2,3,4,5,6,7] 3
          emptyState)).1 = GetResult.found [1,2,3,4,5,6,7] :=
  ⟨⟨by decide, rfl, by decide⟩,
    c5_single_oversized_kept ⟨4, 5⟩ (by decide) "m" [1,2,3,4,5,6,7] 3 9 emptyState
      rfl (by decide)⟩

/-- C8: overwriting `id` (put `A`, then put `B`) leaves exactly `B`'s
record set under `id` — the chunk records are precisely the chunking of
`B`, so nothing written by the first put survives — and a read returns
`B`.  The second put's eviction sweep must not interfere (same side
condition as C1, taken at the intermediate state). -/
theorem c8_overwrite_leaves_B (cfg : CacheConfig) (hcs : 0 < cfg.chunkSize)
    (id : String) (dataA dataB : List Nat) (t1 t2 now' : Nat) (s : CacheState)
    (hfit : sumSizes (deleteModel id (cacheModel cfg id dataA t1 s)).metadata
              + dataB.length ≤ cfg.maxCacheSize
            ∨ (deleteModel id (cacheModel cfg id dataA t1 s)).metadata = []) :
    chunksFor id (cacheModel cfg id dataB t2 (cacheModel cfg id dataA t1 s))
        = chunkRecords id cfg.chunkSize dataB
    ∧ metadataGet id (cacheModel cfg id dataB t2 (cacheModel cfg id dataA t1 s))
        = some (writtenMeta cfg id dataB t2 none none)
    ∧ (getModelFromCache id now'
          (cacheModel cfg id dataB t2 (cacheModel cfg id dataA t1 s))).1
        = GetResult.found dataB :=
  have h := cacheModel_roundtrip cfg hcs id dataB t2 now' (cacheModel cfg id dataA t1 s) hfit
  ⟨h.2.2, h.2.1, h.1⟩

/-- Witness for C8: `A` is three chunks of a 9-byte blob, `B` a 5-byte
blob; after the second put only `B`'s two chunks are stored under the id
and the read returns `B`. -/
theorem c8_overwrite_leaves_B_witness :
    ((0:Nat) < 4
      ∧ (deleteModel "m" (cacheModel ⟨4, 100⟩ "m" [1,2,3,4,5,6,7,8,9] 1
          emptyState)).metadata = [])
    ∧ chunksFor "m" (cacheModel ⟨4, 100⟩ "m" [9,8,7,6,5] 2
          (cacheModel ⟨4, 100⟩ "m" [1,2,3,4,5,6,7,8,9] 1 emptyState))
        = chunkRecords "m" 4 [9,8,7,6,5]
    ∧ (getModelFromCache "m" 3 (cacheModel ⟨4, 100⟩ "m" [9,8,7,6,5] 2
          (cacheModel ⟨4, 100⟩ "m" [1,2,3,4,5,6,7,8,9] 1 emptyState))).1
        = GetResult.found [9,8,7,6,5] :=
  have h := c8_overwrite_leaves_B ⟨4, 100⟩ (by decide) "m" [1,2,3,4,5,6,7,8,9]
    [9,8,7,6,5] 1 2 3 emptyState (Or.inr (by decide))
  ⟨⟨by decide, by decide⟩, h.1, h.2.2⟩

/-- C4: a `cacheModel` that pushes the summed `totalSize` over
`maxCacheSize` with more than one model stored evicts in ascending
`lastAccessed` order: with `A`, `B` already stored (`A` least recently
accessed) and `C` being put, where all three together exceed the budget
but `B` plus `C` fit, `A` ends up absent (metadata and chunks both gone)
while `B` and `C` remain. -/
theorem c4_lru_eviction (cfg : CacheConfig) (mA mB : ModelMetadata)
    (idC : String) (dataC : List Nat) (now : Nat) (chunksAB : List ModelChunk)
    (hAid : mA.modelId ≠ idC) (hBid : mB.modelId ≠ idC)
    (hAB : mA.modelId ≠ mB.modelId)
    (ht1 : mA.lastAccessed ≤ mB.lastAccessed) (ht2 : mB.lastAccessed ≤ now)
    (hover : cfg.maxCacheSize < mA.totalSize + mB.totalSize + dataC.length)
    (hfit : mB.totalSize + dataC.length ≤ cfg.maxCacheSize) :
    let final := cacheModel cfg idC dataC now ⟨[mA, mB], chunksAB⟩
    metadataGet mA.modelId final = none
    ∧ chunksFor mA.modelId final = []
    ∧ metadataGet mB.modelId final = some mB
    ∧ metadataGet idC final = some (writtenMeta cfg idC dataC now none none) := by
  intro final
  have hAfilter : mA.modelId != idC := by simp [hAid]
  have hBfilter : mB.modelId != idC := by simp [hBid]
  have hdel : (deleteModel idC ⟨[mA, mB], chunksAB⟩).metadata = [mA, mB] := by
    simp [deleteModel, List.filter_cons, hAfilter, hBfilter]
  set mC := writtenMeta cfg idC dataC now none none with hmC
  have hmCid : mC.modelId = idC := rfl
  have hs2meta : (postWriteState cfg idC dataC now none none
      ⟨[mA, mB], chunksAB⟩).metadata = [mA, mB, mC] := by
    unfold postWriteState
    rw [upsertMeta_deleteModel hmCid, hdel]
    rfl
  set s2 := postWriteState cfg idC dataC now none none ⟨[mA, mB], chunksAB⟩ with hs2
  have hsumList : sumSizes [mA, mB, mC]
      = mA.totalSize + mB.totalSize + dataC.length := by
    simp [sumSizes, writtenMeta, mC]
    ring
  have hsorted : sortByLastAccessed [mA, mB, mC] = [mA, mB, mC] := by
    apply List.Sorted.insertionSort_eq
    have hmClast : mC.lastAccessed = now := rfl
    simp only [List.sorted_cons, List.mem_cons, List.mem_singleton]
    refine ⟨?_, ?_, ?_⟩
    · rintro b (rfl | rfl | h)
      · exact ht1
      · rw [hmClast]; exact le_trans ht1 ht2
      · cases h
    · rintro b (rfl | h)
      · rw [hmClast]; exact ht2
      · cases h
    · simp
  have hevict : evictModelsIfNeeded cfg.maxCacheSize (fun _ => false) s2
      = deleteModel mA.modelId s2 := by
    simp only [evictModelsIfNeeded]
    rw [hs2meta, hsumList, hsorted]
    rw [if_neg (by omega :
      ¬ (mA.totalSize + mB.totalSize + dataC.length ≤ cfg.maxCacheSize))]
    rw [if_neg (by simp : ¬ (([mA, mB, mC].length == 1) = true))]
    rw [evictLoop_step [mB, mC] s2 (by omega) rfl]
    rw [evictLoop_stop _ _ _ _ (by omega :
      mA.totalSize + mB.totalSize + dataC.length - mA.totalSize ≤ cfg.maxCacheSize)]
  have hfinal : final = deleteModel mA.modelId s2 := by
    show cacheModel cfg idC dataC now ⟨[mA, mB], chunksAB⟩ = _
    rw [cacheModel_eq_evict_postWrite, ← hs2, hevict]
  refine ⟨?_, ?_, ?_, ?_⟩
  · rw [hfinal]
    exact metadataGet_deleteModel_self _ _
  · rw [hfinal]
    exact chunksFor_deleteModel_self _ _
  · rw [hfinal, metadataGet_deleteModel_ne (fun h => hAB h.symm) s2]
    show (s2.metadata.find? _) = some mB
    rw [hs2meta]
    have hab : (mA.modelId == mB.modelId) = false := by simp [hAB]
    simp [hab]
  · rw [hfinal, metadataGet_deleteModel_ne (Ne.symm hAid) s2]
    show (s2.metadata.find? _) = some mC
    rw [hs2meta]
    have ha : (mA.modelId == idC) = false := by simp [hAid]
    have hb : (mB.modelId == idC) = false := by simp [hBid]
    simp [ha, hb, hmCid]

/-- Witness for C4: models `a` (size 50, accessed at 1) and `b` (size 30,
accessed at 2) are stored; putting `c` (5 bytes) at time 10 with budget 40
evicts only `a`. -/
theorem c4_lru_eviction_witness :
    let mA : ModelMetadata := ⟨"a", 50, 13, 4, 0, 1, none, none⟩
    let mB : ModelMetadata := ⟨"b", 30, 8, 4, 0, 2, none, none⟩
    let final := cacheModel ⟨4, 40⟩ "c" [1,2,3,4,5] 10 ⟨[mA, mB], []⟩
    metadataGet "a" final = none
    ∧ chunksFor "a" final = []
    ∧ metadataGet "b" final = some mB
    ∧ metadataGet "c" final = some (writtenMeta ⟨4, 40⟩ "c" [1,2,3,4,5] 10 none none) :=
  c4_lru_eviction ⟨4, 40⟩ ⟨"a", 50, 13, 4, 0, 1, none, none⟩
    ⟨"b", 30, 8, 4, 0, 2, none, none⟩ "c" [1,2,3,4,5] 10 []
    (by decide) (by decide) (by decide) (by decide) (by decide)
    (by decide) (by decide)

/-! ### Chunk-length arithmetic -/

theorem ceilDiv_zero_left {cs : Nat} : ceilDiv 0 cs = 0 := by
  unfold ceilDiv
  rcases Nat.eq_zero_or_pos cs with h | h
  · simp [h]
  · rw [Nat.zero_add]
    exact Nat.div_eq_of_lt (by omega)

theorem pos_of_ceilDiv_pos {L cs : Nat} (h : 0 < ceilDiv L cs) : 0 < L := by
  by_contra hL
  have : L = 0 := by omega
  rw [this, ceilDiv_zero_left] at h
  exact Nat.lt_irrefl 0 h

theorem pred_ceilDiv_mul_lt {L cs : Nat} (hcs : 0 < cs) (hL : 0 < L) :
    (ceilDiv L cs - 1) * cs < L := by
  rw [ceilDiv_eq_pred_div_succ hcs hL, Nat.add_sub_cancel]
  calc (L - 1) / cs * cs ≤ L - 1 := Nat.div_mul_le_self _ _
    _ < L := by omega

/-- Length of the final chunk: `L mod chunkSize`, or `chunkSize` when that
remainder is zero. -/
theorem last_chunk_len {L cs : Nat} (hcs : 0 < cs) (hL : 0 < L) :
    L - (ceilDiv L cs - 1) * cs = if L % cs = 0 then cs else L % cs := by
  have hdm := Nat.div_add_mod L cs
  have hmod : L % cs < cs := Nat.mod_lt _ hcs
  rw [ceilDiv_eq_pred_div_succ hcs hL, Nat.add_sub_cancel]
  by_cases hr : L % cs = 0
  · rw [if_pos hr]
    rw [hr, Nat.add_zero] at hdm
    have hq : 0 < L / cs := by
      by_contra hq0
      have : L / cs = 0 := Nat.eq_zero_of_not_pos hq0
      rw [this, Nat.mul_zero] at hdm
      omega
    obtain ⟨k, hk⟩ : ∃ k, L / cs = k + 1 := ⟨L / cs - 1, by omega⟩
    have hLk : L = cs * k + cs := by
      rw [← hdm, hk, Nat.mul_add, Nat.mul_one]
    have hL1 : L - 1 = cs - 1 + cs * k := by omega
    have hdiv : (L - 1) / cs = k := by
      rw [hL1, Nat.add_mul_div_left _ _ hcs, Nat.div_eq_of_lt (by omega), Nat.zero_add]
    rw [hdiv, Nat.mul_comm]
    omega
  · rw [if_neg hr]
    have hr1 : 0 < L % cs := Nat.pos_of_ne_zero hr
    have hL1 : L - 1 = L % cs - 1 + cs * (L / cs) := by
      conv_lhs => rw [← hdm]
      rw [Nat.add_sub_assoc (by omega : 1 ≤ L % cs), Nat.add_comm]
    have hdiv : (L - 1) / cs = L / cs := by
      rw [hL1, Nat.add_mul_div_left _ _ hcs, Nat.div_eq_of_lt (by omega), Nat.zero_add]
    rw [hdiv, Nat.mul_comm]
    exact Nat.sub_eq_of_eq_add (by rw [Nat.add_comm]; exact hdm.symm)

theorem chunk_data_length (id : String) {cs : Nat} (data : List Nat)
    {c : ModelChunk} (hc : c ∈ chunkRecords id cs data) :
    c.data.length = min cs (data.length - c.chunkIndex * cs)
    ∧ c.chunkIndex < ceilDiv data.length cs := by
  unfold chunkRecords at hc
  obtain ⟨i, hi, rfl⟩ := List.mem_map.mp hc
  refine ⟨?_, List.mem_range.mp hi⟩
  simp [List.length_take, List.length_drop]

/-- C7: for a model whose metadata record exists after a successful put of
`L` bytes, `chunkCount = ceil(L / chunkSize)`; exactly `chunkCount` chunk
records exist under the id, with contiguous zero-based indices
`0 .. chunkCount - 1`; every non-final chunk's data has length `chunkSize`
and the final chunk's has length `L mod chunkSize` (or `chunkSize` when
that remainder is zero); and the chunk byte lengths sum to `totalSize`. -/
theorem c7_chunk_invariants (cfg : CacheConfig) (hcs : 0 < cfg.chunkSize)
    (id : String) (data : List Nat) (now : Nat) (s : CacheState)
    (m : ModelMetadata)
    (hmeta : metadataGet id (cacheModel cfg id data now s) = some m) :
    m.chunkCount = ceilDiv data.length cfg.chunkSize
    ∧ m.totalSize = data.length
    ∧ (chunksFor id (cacheModel cfg id data now s)).length = m.chunkCount
    ∧ (chunksFor id (cacheModel cfg id data now s)).map (fun c => c.chunkIndex)
        = List.range m.chunkCount
    ∧ (∀ c ∈ chunksFor id (cacheModel cfg id data now s),
        c.chunkIndex + 1 < m.chunkCount → c.data.length = cfg.chunkSize)
    ∧ (∀ c ∈ chunksFor id (cacheModel cfg id data now s),
        c.chunkIndex + 1 = m.chunkCount →
          c.data.length = if data.length % cfg.chunkSize = 0 then cfg.chunkSize
            else data.length % cfg.chunkSize)
    ∧ ((chunksFor id (cacheModel cfg id data now s)).map
        (fun c => c.data.length)).sum = m.totalSize := by
  rw [cacheModel_eq_evict_postWrite] at hmeta ⊢
  have hpw : metadataGet id (postWriteState cfg id data now none none s)
      = some (writtenMeta cfg id data now none none) := by
    unfold postWriteState
    exact metadataGet_upsert_self
      (show (writtenMeta cfg id data now none none).modelId = id from rfl) _ _
  have hpwc : chunksFor id (postWriteState cfg id data now none none s)
      = chunkRecords id cfg.chunkSize data := by
    unfold postWriteState
    exact chunksFor_postWrite id cfg.chunkSize data s _
  rcases evict_cases cfg.maxCacheSize (fun _ => false)
      (postWriteState cfg id data now none none s) id with ⟨h1, h2⟩ | ⟨h1, _⟩
  · rw [h1, hpw] at hmeta
    have hmw : m = writtenMeta cfg id data now none none := (Option.some.inj hmeta).symm
    rw [h2, hpwc]
    subst hmw
    have hcount : (writtenMeta cfg id data now none none).chunkCount
        = ceilDiv data.length cfg.chunkSize := rfl
    refine ⟨rfl, rfl, ?_, ?_, ?_, ?_, ?_⟩
    · rw [chunkRecords_length, hcount]
    · rw [hcount]
      unfold chunkRecords
      rw [List.map_map]
      have hfun : ((fun c : ModelChunk => c.chunkIndex) ∘ fun i =>
          ({ modelId := id, chunkIndex := i,
             data := (data.drop (i * cfg.chunkSize)).take cfg.chunkSize } : ModelChunk))
          = fun i => i := rfl
      rw [hfun, List.map_id']
    · intro c hc hlt
      obtain ⟨hlen, hidx⟩ := chunk_data_length id data hc
      rw [hcount] at hlt
      have hn0 : 0 < ceilDiv data.length cfg.chunkSize := by omega
      have hbound : (c.chunkIndex + 1) * cfg.chunkSize < data.length := by
        calc (c.chunkIndex + 1) * cfg.chunkSize
            ≤ (ceilDiv data.length cfg.chunkSize - 1) * cfg.chunkSize :=
              Nat.mul_le_mul_right _ (by omega)
          _ < data.length := pred_ceilDiv_mul_lt hcs (pos_of_ceilDiv_pos hn0)
      have hstep : c.chunkIndex * cfg.chunkSize + cfg.chunkSize ≤ data.length := by
        rw [Nat.add_mul, Nat.one_mul] at hbound
        omega
      rw [hlen, Nat.min_eq_left (by omega)]
    · intro c hc hlast
      obtain ⟨hlen, hidx⟩ := chunk_data_length id data hc
      rw [hcount] at hlast
      have hn0 : 0 < ceilDiv data.length cfg.chunkSize := by omega
      have hL : 0 < data.length := pos_of_ceilDiv_pos hn0
      have hidxeq : c.chunkIndex = ceilDiv data.length cfg.chunkSize - 1 := by omega
      rw [hlen, hidxeq]
      rw [← last_chunk_len hcs hL]
      have hle : data.length ≤ ceilDiv data.length cfg.chunkSize * cfg.chunkSize :=
        le_ceilDiv_mul hcs
      have hml : (ceilDiv data.length cfg.chunkSize - 1) * cfg.chunkSize
          < data.length := pred_ceilDiv_mul_lt hcs hL
      have hsub : data.length - (ceilDiv data.length cfg.chunkSize - 1) * cfg.chunkSize
          ≤ cfg.chunkSize := by
        have hn : 0 < ceilDiv data.length cfg.chunkSize := by omega
        have hsplit : ceilDiv data.length cfg.chunkSize * cfg.chunkSize
            = (ceilDiv data.length cfg.chunkSize - 1) * cfg.chunkSize + cfg.chunkSize := by
          rw [← Nat.succ_mul]
          congr 1
          omega
        omega
      exact Nat.min_eq_right hsub
    · have : ((chunkRecords id cfg.chunkSize data).map (fun c => c.data.length)).sum
          = (((chunkRecords id cfg.chunkSize data).map (fun c => c.data)).flatten).length := by
        rw [List.length_flatten, List.map_map]
        rfl
      rw [this, flatten_chunkRecords id hcs data]
      rfl
  · rw [h1] at hmeta
    cases hmeta

/-- Witness for C7 at chunk size 4 and a 9-byte put: `chunkCount` is
`ceil(9/4) = 3`, exactly 3 chunk records exist, and their byte lengths
sum to `totalSize`. -/
theorem c7_chunk_invariants_witness :
    (writtenMeta ⟨4, 100⟩ "m" [1,2,3,4,5,6,7,8,9] 5 none none).chunkCount
        = ceilDiv 9 4
    ∧ (chunksFor "m" (cacheModel ⟨4, 100⟩ "m" [1,2,3,4,5,6,7,8,9] 5
          emptyState)).length
        = (writtenMeta ⟨4, 100⟩ "m" [1,2,3,4,5,6,7,8,9] 5 none none).chunkCount
    ∧ ((chunksFor "m" (cacheModel ⟨4, 100⟩ "m" [1,2,3,4,5,6,7,8,9] 5
          emptyState)).map (fun c => c.data.length)).sum
        = (writtenMeta ⟨4, 100⟩ "m" [1,2,3,4,5,6,7,8,9] 5 none none).totalSize :=
  have h := c7_chunk_invariants ⟨4, 100⟩ (by decide) "m" [1,2,3,4,5,6,7,8,9] 5
    emptyState (writtenMeta ⟨4, 100⟩ "m" [1,2,3,4,5,6,7,8,9] 5 none none) (by decide)
  ⟨h.1, h.2.2.1, h.2.2.2.2.2.2⟩

/-- C6: when a metadata record exists but the number of chunk records
under the id differs from `metadata.chunkCount`, `getModelFromCache`
resolves `null` (absent, not an error), deletes the corrupt entry — so
its chunks are gone too — and `isModelCached` reports `false` afterward. -/
theorem c6_corrupt_selfheal (id : String) (now : Nat) (s : CacheState)
    (meta : ModelMetadata)
    (hmeta : metadataGet id s = some meta)
    (hmismatch : (chunksFor id s).length ≠ meta.chunkCount) :
    (getModelFromCache id now s).1 = GetResult.absent
    ∧ isModelCached id (getModelFromCache id now s).2 = false
    ∧ chunksFor id (getModelFromCache id now s).2 = [] := by
  unfold getModelFromCache
  rw [hmeta]
  simp only
  have hcf : chunksFor id
      { metadata := upsertMeta { meta with lastAccessed := now } s.metadata
        chunks := s.chunks } = chunksFor id s := rfl
  rw [hcf, if_pos hmismatch]
  refine ⟨rfl, ?_, ?_⟩
  · unfold isModelCached
    rw [metadataGet_deleteModel_self]
    rfl
  · exact chunksFor_deleteModel_self id _

/-- Witness for C6: metadata claims 2 chunks but only one chunk record is
present; the read self-heals. -/
theorem c6_corrupt_selfheal_witness :
    let s : CacheState :=
      { metadata := [⟨"m", 8, 2, 4, 0, 0, none, none⟩]
        chunks := [⟨"m", 0, [1,2,3,4]⟩] }
    (getModelFromCache "m" 9 s).1 = GetResult.absent
    ∧ isModelCached "m" (getModelFromCache "m" 9 s).2 = false
    ∧ chunksFor "m" (getModelFromCache "m" 9 s).2 = [] :=
  c6_corrupt_selfheal "m" 9
    { metadata := [⟨"m", 8, 2, 4, 0, 0, none, none⟩]
      chunks := [⟨"m", 0, [1,2,3,4]⟩] }
    ⟨"m", 8, 2, 4, 0, 0, none, none⟩ (by decide) (by decide)

theorem cacheModelF_failure (cfg : CacheConfig) (f : FailureSpec) (id : String)
    (data : List Nat) (now : Nat) (fn ct : Option String) (s : CacheState)
    (hcond : (f.metaWriteFails
      || (List.range (ceilDiv data.length cfg.chunkSize)).any f.chunkWriteFails) = true) :
    cacheModelF cfg f id data now fn ct s = (false, deleteModel id s) := by
  simp [cacheModelF, hcond]

/-- C2: if the metadata write or any chunk write inside `cacheModel`'s
read-write transaction fails, the transaction is aborted: the put reports
failure and no partial record set for the id remains persisted — neither
metadata nor any chunk survives under the id, and every other id's records
are untouched (so no chunks-without-metadata or metadata-without-chunks
state for the id is observable after the operation). -/
theorem c2_failed_put_rollback (cfg : CacheConfig) (f : FailureSpec) (id : String)
    (data : List Nat) (now : Nat) (fn ct : Option String) (s : CacheState)
    (hfail : f.metaWriteFails = true
      ∨ (List.range (ceilDiv data.length cfg.chunkSize)).any f.chunkWriteFails = true) :
    (cacheModelF cfg f id data now fn ct s).1 = false
    ∧ metadataGet id (cacheModelF cfg f id data now fn ct s).2 = none
    ∧ chunksFor id (cacheModelF cfg f id data now fn ct s).2 = []
    ∧ ∀ id', id' ≠ id →
        metadataGet id' (cacheModelF cfg f id data now fn ct s).2 = metadataGet id' s
        ∧ chunksFor id' (cacheModelF cfg f id data now fn ct s).2 = chunksFor id' s := by
  have hcond : (f.metaWriteFails
      || (List.range (ceilDiv data.length cfg.chunkSize)).any f.chunkWriteFails) = true := by
    rcases hfail with h | h <;> simp [h]
  rw [cacheModelF_failure cfg f id data now fn ct s hcond]
  refine ⟨rfl, metadataGet_deleteModel_self id s, chunksFor_deleteModel_self id s, ?_⟩
  intro id' hne
  exact ⟨metadataGet_deleteModel_ne hne s, chunksFor_deleteModel_ne hne s⟩

/-- Witness for C2: chunk 1 of a 9-byte, three-chunk put fails; the put
reports failure, the id holds no metadata and no chunks afterwards, and an
unrelated id's records survive. -/
theorem c2_failed_put_rollback_witness :
    let f : FailureSpec :=
      { metaWriteFails := false, chunkWriteFails := fun i => i == 1
        deleteFails := fun _ => false }
    let s : CacheState :=
      { metadata := [⟨"other", 2, 1, 4, 0, 0, none, none⟩]
        chunks := [⟨"other", 0, [7, 7]⟩] }
    (cacheModelF ⟨4, 100⟩ f "m" [1,2,3,4,5,6,7,8,9] 5 none none s).1 = false
    ∧ metadataGet "m" (cacheModelF ⟨4, 100⟩ f "m" [1,2,3,4,5,6,7,8,9] 5
        none none s).2 = none
    ∧ chunksFor "m" (cacheModelF ⟨4, 100⟩ f "m" [1,2,3,4,5,6,7,8,9] 5
        none none s).2 = [] :=
  have h := c2_failed_put_rollback ⟨4, 100⟩
    { metaWriteFails := false, chunkWriteFails := fun i => i == 1
      deleteFails := fun _ => false }
    "m" [1,2,3,4,5,6,7,8,9] 5 none none
    { metadata := [⟨"other", 2, 1, 4, 0, 0, none, none⟩]
      chunks := [⟨"other", 0, [7, 7]⟩] }
    (Or.inr (by decide))
  ⟨h.1, h.2.1, h.2.2.1⟩

/-- C9: a failing delete during the eviction sweep does not abort the
sweep — the next-oldest model is still attempted (and evicted) — and a
`cacheModel` whose writes succeed still reports success no matter which
eviction deletes fail.  The size counter is not decremented for the failed
eviction, mirroring the `catch`-and-continue in the loop. -/
theorem c9_eviction_failure_tolerated (cfg : CacheConfig) (f : FailureSpec)
    (id : String) (data : List Nat) (now : Nat) (fn ct : Option String)
    (s sweepState : CacheState) (m1 m2 : ModelMetadata) (cur : Nat)
    (h1 : f.deleteFails m1.modelId = true)
    (h2 : f.deleteFails m2.modelId = false)
    (hcur : ¬ cur ≤ cfg.maxCacheSize)
    (hm : f.metaWriteFails = false)
    (hc : (List.range (ceilDiv data.length cfg.chunkSize)).any f.chunkWriteFails
      = false) :
    evictLoop cfg.maxCacheSize f.deleteFails [m1, m2] cur sweepState
        = deleteModel m2.modelId sweepState
    ∧ (cacheModelF cfg f id data now fn ct s).1 = true := by
  constructor
  · rw [evictLoop_step_failed _ _ hcur h1, evictLoop_step _ _ hcur h2]
    rfl
  · rw [cacheModelF_success cfg f id data now fn ct s hm hc]

/-- Witness for C9: model `a`'s eviction delete fails, model `b` is still
evicted, and the triggering put succeeds. -/
theorem c9_eviction_failure_tolerated_witness :
    let f : FailureSpec :=
      { metaWriteFails := false, chunkWriteFails := fun _ => false
        deleteFails := fun i => i == "a" }
    let m1 : ModelMetadata := ⟨"a", 50, 13, 4, 0, 1, none, none⟩
    let m2 : ModelMetadata := ⟨"b", 30, 8, 4, 0, 2, none, none⟩
    let sweep : CacheState := { metadata := [m1, m2], chunks := [] }
    evictLoop 40 f.deleteFails [m1, m2] 80 sweep = deleteModel "b" sweep
    ∧ (cacheModelF ⟨4, 40⟩ f "c" [1,2,3] 9 none none emptyState).1 = true :=
  c9_eviction_failure_tolerated ⟨4, 40⟩
    { metaWriteFails := false, chunkWriteFails := fun _ => false
      deleteFails := fun i => i == "a" }
    "c" [1,2,3] 9 none none emptyState
    { metadata := [⟨"a", 50, 13, 4, 0, 1, none, none⟩,
        ⟨"b", 30, 8, 4, 0, 2, none, none⟩], chunks := [] }
    ⟨"a", 50, 13, 4, 0, 1, none, none⟩ ⟨"b", 30, 8, 4, 0, 2, none, none⟩ 80
    (by decide) (by decide) (by decide) rfl (by decide)

/-- C3 counterexample: in the chunked (version-2) cache with the store
unavailable, `getModelFromCache` and `cacheModel` raise a per-call
`StorageUnavailable` error — they do not report absent / act as no-ops, so
the claim "no per-call error is raised to the caller" is false for this
implementation. -/
theorem c3_unavailable_counterexample :
    getModelV2 false "m" 0 emptyState
        = Except.error CacheError.storageUnavailable
    ∧ (getModelV2 false "m" 0 emptyState).isOk = false
    ∧ (cacheModelV2 false ⟨4, 100⟩ noFailures "m" [1,2,3] 0 emptyState).isOk = false
    ∧ (isModelCachedV2 false "m" emptyState).isOk = false
    ∧ (clearCacheV2 false emptyState).isOk = false :=
  ⟨rfl, rfl, rfl, rfl, rfl⟩

/-- C3 (amended): when the durable store could not be opened, the
version-2 (chunked) cache latches the failure and fails fast — every
subsequent operation returns a `StorageUnavailable` error rather than
retrying the open; only the legacy version-1 cache
(`ts-wrapper/model-cache.ts`) degrades to cache-disabled behavior with no
per-call error: its `getModelFromCache` reports absent, `isModelCached`
reports false, and `cacheModel`/`clearCache` are no-ops. -/
theorem c3_unavailable_degraded (id : String) (now : Nat) (s : CacheState)
    (cfg : CacheConfig) (f : FailureSpec) (data : List Nat) :
    getModelV2 false id now s = Except.error CacheError.storageUnavailable
    ∧ cacheModelV2 false cfg f id data now s
        = Except.error CacheError.storageUnavailable
    ∧ isModelCachedV2 false id s = Except.error CacheError.storageUnavailable
    ∧ clearCacheV2 false s = Except.error CacheError.storageUnavailable
    ∧ v1GetModelFromCache none id = none
    ∧ v1IsModelCached none id = false
    ∧ v1CacheModel none id data now = none
    ∧ v1ClearCache none = none :=
  ⟨rfl, rfl, rfl, rfl, rfl, rfl, rfl, rfl⟩

/-- C10: a falsy (`0` or absent) `chunkSizeInBytes` or
`maxCacheSizeInBytes` constructor argument is silently replaced by its
default (16 MiB chunk size, 512 MiB max cache size) — each argument
independently — so the chunk size actually used is never zero; truthy
arguments are stored unchanged.  (The fields are `readonly` and no method
assigns them, which the embedding reflects by making the configuration an
immutable value threaded through every operation.) -/
theorem c10_constructor_defaults (a b : Nat) (ha : a ≠ 0) (hb : b ≠ 0)
    (csArg msArg : Option Nat) :
    mkModelCache none none
        = ⟨DEFAULT_CHUNK_SIZE_BYTES, DEFAULT_MAX_CACHE_SIZE_BYTES⟩
    ∧ mkModelCache (some 0) (some 0)
        = ⟨DEFAULT_CHUNK_SIZE_BYTES, DEFAULT_MAX_CACHE_SIZE_BYTES⟩
    ∧ mkModelCache (some 0) (some b) = ⟨DEFAULT_CHUNK_SIZE_BYTES, b⟩
    ∧ mkModelCache (some a) (some 0) = ⟨a, DEFAULT_MAX_CACHE_SIZE_BYTES⟩
    ∧ mkModelCache (some a) (some b) = ⟨a, b⟩
    ∧ DEFAULT_CHUNK_SIZE_BYTES = 16777216
    ∧ DEFAULT_MAX_CACHE_SIZE_BYTES = 536870912
    ∧ 0 < (mkModelCache csArg msArg).chunkSize := by
  refine ⟨rfl, rfl, ?_, ?_, ?_, rfl, rfl, ?_⟩
  · simp [mkModelCache, hb]
  · simp [mkModelCache, ha]
  · simp [mkModelCache, ha, hb]
  · unfold mkModelCache
    cases csArg with
    | none => exact (show (0:Nat) < DEFAULT_CHUNK_SIZE_BYTES by decide)
    | some n =>
      by_cases hn : n = 0
      · simp [hn, DEFAULT_CHUNK_SIZE_BYTES]
      · simp [hn]
        omega

/-- Witness for C10 at `a = 3`, `b = 7`. -/
theorem c10_constructor_defaults_witness :
    mkModelCache (some 0) (some 0)
        = ⟨DEFAULT_CHUNK_SIZE_BYTES, DEFAULT_MAX_CACHE_SIZE_BYTES⟩
    ∧ mkModelCache (some 3) (some 7) = ⟨3, 7⟩
    ∧ 0 < (mkModelCache (some 0) none).chunkSize :=
  have h := c10_constructor_defaults 3 7 (by decide) (by decide) (some 0) none
  ⟨h.2.1, h.2.2.2.2.1, h.2.2.2.2.2.2.2⟩
